import Mathlib

/-!
Shallow embedding of the bandabi routing-and-timeline simulation core
(`src/bandabi/routing/tsp.py`, `src/bandabi/routing/route_solver.py`,
`src/bandabi/pipeline.py`, `src/bandabi/clustering.py`,
`src/bandabi/metrics.py`, `src/bandabi/time_model.py`).

Modelling conventions:
* Python floats are embedded as exact rationals (`ℚ`); the algorithms are
  control-flow over comparisons and sums, so the embedding is faithful up to
  float rounding, which no claim depends on.
* Transcendental geometry (`haversine_km`, `_euclid` with its square root)
  is abstracted as an explicit distance-function parameter: every algorithm
  below consumes distances only through such a function, so all theorems
  quantify over the abstracted geometry and are therefore stronger than the
  corresponding statements about any one concrete metric.
* `numpy` matrices are embedded as total functions `ℕ → ℕ → ℚ`; the ndarray
  shape check in `tsp.solve_tsp` has no counterpart on total functions.
* Randomness (`rng.lognormal`, `random.Random` draws) is embedded as an
  explicit oracle argument, matching the seeded generators of the source.
* Python `set` iteration over small ints enumerates in ascending order, so
  the `unvisited` set of the nearest-neighbor loops is embedded as an
  ascending list; `min(unvisited, key=f)` keeps the first minimizer, which
  `argminFirst` reproduces.
-/

/-- 2-opt improvement threshold, `1e-9` in both `_two_opt` implementations. -/
def eps : ℚ := 1 / 1000000000

/-- `_route_cost(route, dist_mat)` / `_route_cost(route, dist_mat, points)`:
sum of the cost of consecutive edges (`zip(route[:-1], route[1:])`). -/
def route_cost (d : ℕ → ℕ → ℚ) (r : List ℕ) : ℚ :=
  ((r.zip r.tail).map fun p => d p.1 p.2).sum

/-- The 2-opt edge move `best[:i] + best[i:j][::-1] + best[j:]`
(slice end `j` exclusive). -/
def twoOptSwap (r : List ℕ) (i j : ℕ) : List ℕ :=
  r.take i ++ ((r.drop i).take (j - i)).reverse ++ r.drop j

/-- One candidate test of a 2-opt sweep: accept the move when it improves the
current cost by more than `eps` (`c + 1e-9 < best_cost`). -/
def twoOptStep (d : ℕ → ℕ → ℚ) (cur : List ℕ) (p : ℕ × ℕ) : List ℕ :=
  let cand := twoOptSwap cur p.1 p.2
  if route_cost d cand + eps < route_cost d cur then cand else cur

/-- One full sweep over a fixed pair schedule, threading the incumbent route
exactly as the Python double loop threads `best` / `best_cost`. -/
def twoOptPassOn (d : ℕ → ℕ → ℚ) (ps : List (ℕ × ℕ)) (r : List ℕ) : List ℕ :=
  ps.foldl (twoOptStep d) r

/-- Pair schedule of `tsp.py:_two_opt`: `i in range(1, L-2)`,
`j in range(i+1, L-1)`, skipping `j - i == 1`; the reversed slice is
`best[i:j]`. -/
def tspPairs (L : ℕ) : List (ℕ × ℕ) :=
  ((List.range' 1 (L - 3)).map fun i =>
    (List.range' (i + 1) (L - 2 - i)).filterMap fun j =>
      if j = i + 1 then none else some (i, j)).flatten

/-- Pair schedule of `route_solver.py:_two_opt`: `i in range(1, n-3)`,
`k in range(i+1, n-2)`, with reversed slice `best[i:k+1]`; we record the
exclusive end `k+1` so `twoOptSwap` applies uniformly. -/
def rsPairs (L : ℕ) : List (ℕ × ℕ) :=
  ((List.range' 1 (L - 4)).map fun i =>
    (List.range' (i + 1) (L - 3 - i)).map fun k => (i, k + 1)).flatten

/-- One sweep of `tsp.py:_two_opt` over the current route. -/
def tspPass (d : ℕ → ℕ → ℚ) (r : List ℕ) : List ℕ :=
  twoOptPassOn d (tspPairs r.length) r

/-- One sweep of `route_solver.py:_two_opt` over the current route. -/
def rsPass (d : ℕ → ℕ → ℚ) (r : List ℕ) : List ℕ :=
  twoOptPassOn d (rsPairs r.length) r

/-- The `while improved:` loop of `tsp.py:_two_opt`: repeat sweeps until a
sweep makes no change.  The Python loop is unbounded; the embedding carries
fuel that `tspFuel` makes provably sufficient, so the fixpoint of the sweep
is reached exactly as in the source. -/
def twoOptLoop (p : List ℕ → List ℕ) : ℕ → List ℕ → List ℕ
  | 0, r => r
  | f + 1, r =>
    let r2 := p r
    if r2 = r then r else twoOptLoop p f r2

/-- Largest `|d a b|` over pairs of nodes of the route (0 for the empty
route); used only to size the fuel of `tsp_two_opt`. -/
def pairAbsMax (d : ℕ → ℕ → ℚ) (r : List ℕ) : ℚ :=
  (r.flatMap fun a => r.map fun b => |d a b|).foldr max 0

/-- Sufficient sweep count for `tsp.py:_two_opt`: every non-final sweep
lowers the cost by more than `eps` and all reachable costs lie within
`±(length · pairAbsMax)`, so this many sweeps always reach the fixpoint. -/
def tspFuel (d : ℕ → ℕ → ℚ) (r : List ℕ) : ℕ :=
  (⌈2 * (r.length : ℚ) * pairAbsMax d r / eps⌉).toNat + 1

/-- `tsp.py:_two_opt(route, dist_mat, points)` with the cost source
abstracted as `d` (matrix entries for `time_nn`, Euclidean point distance
otherwise). -/
def tsp_two_opt (d : ℕ → ℕ → ℚ) (r : List ℕ) : List ℕ :=
  twoOptLoop (tspPass d) (tspFuel d r) r

/-- The `while improved and passes < max_passes:` loop of
`route_solver.py:_two_opt`; returns the final route together with the number
of executed sweeps (`passes`). -/
def rsLoop (p : List ℕ → List ℕ) : ℕ → ℕ → List ℕ → List ℕ × ℕ
  | 0, done, b => (b, done)
  | f + 1, done, b =>
    let b2 := p b
    if b2 = b then (b2, done + 1) else rsLoop p f (done + 1) b2

/-- `route_solver.py:_two_opt(route, dist_mat, max_passes=30)`. -/
def rs_two_opt (d : ℕ → ℕ → ℚ) (max_passes : ℕ) (r : List ℕ) : List ℕ :=
  (rsLoop (rsPass d) max_passes 0 r).1

/-- Number of sweeps `route_solver.py:_two_opt` executes. -/
def rs_two_opt_passes (d : ℕ → ℕ → ℚ) (max_passes : ℕ) (r : List ℕ) : ℕ :=
  (rsLoop (rsPass d) max_passes 0 r).2

/-- `min(iterable, key=f)` over an ascending list: keep the first element
whose key is strictly smaller than that of the incumbent. -/
def argminFirst (f : ℕ → ℚ) : ℕ → List ℕ → ℕ
  | best, [] => best
  | best, x :: xs => if f x < f best then argminFirst f x xs else argminFirst f best xs

/-- The greedy `while unvisited:` loop shared by `tsp.py:solve_tsp` and
`route_solver.py:_nearest_neighbor`; fuel equals the number of unvisited
nodes, so it never runs out. -/
def nnLoop (d : ℕ → ℕ → ℚ) : ℕ → ℕ → List ℕ → List ℕ
  | 0, _, _ => []
  | _ + 1, _, [] => []
  | f + 1, cur, x :: xs =>
    let nxt := argminFirst (d cur) x xs
    nxt :: nnLoop d f nxt ((x :: xs).erase nxt)

/-- Nearest-neighbor round trip `[0] ++ greedy order of 1..n-1 ++ [0]`. -/
def nn_route (d : ℕ → ℕ → ℚ) (n : ℕ) : List ℕ :=
  0 :: (nnLoop d (n - 1) 0 (List.range' 1 (n - 1)) ++ [0])

/-- `tsp.py:solve_tsp(points, dist_mat, method=..., improve_2opt=...)`.
`pointDist i j` abstracts `_euclid(points[i], points[j])`; `mat` is the
optional time matrix.  Error strings follow the source (the `ValueError`
message for an unknown method embeds the offending value). -/
def solve_tsp (n : ℕ) (pointDist : ℕ → ℕ → ℚ) (mat : Option (ℕ → ℕ → ℚ))
    (method : String) (improve_2opt : Bool) : Except String (List ℕ) :=
  if n = 0 then .ok []
  else if n = 1 then .ok [0, 0]
  else if method ≠ "euclid_nn" ∧ method ≠ "time_nn" then
    .error ("Unknown routing method: " ++ method)
  else if method = "time_nn" ∧ mat.isNone then
    .error "dist_mat is required for method time_nn"
  else
    let d : ℕ → ℕ → ℚ :=
      if method = "time_nn" then mat.getD (fun _ _ => 0) else pointDist
    let route := nn_route d n
    .ok (if improve_2opt = true ∧ 4 < route.length then tsp_two_opt d route else route)

/-- `route_solver.py:_nearest_neighbor(dist_mat)` (`n = dist_mat.shape[0]`). -/
def rs_nearest_neighbor (d : ℕ → ℕ → ℚ) (n : ℕ) : List ℕ :=
  nn_route d n

/-- `route_solver.py:_tabu_search(route, dist_mat, seed, iters, tabu_tenure)`.
`rng t` yields the two `randrange(1, n-2)` draws of iteration `t` (raw
naturals, mapped into `[1, n-3]` as `randrange` does); the tabu dict is an
association list whose most recent binding shadows older ones. -/
def tabu_search (d : ℕ → ℕ → ℚ) (rng : ℕ → ℕ × ℕ) (route : List ℕ)
    (iters : ℕ) (tenure : ℕ) : List ℕ :=
  let n := route.length
  if n < 6 then rs_two_opt d 10 route
  else
    let step := fun (st : List ℕ × List ℕ × List ((ℕ × ℕ) × ℕ)) (t : ℕ) =>
      let best := st.1
      let cur := st.2.1
      let tabu := st.2.2
      let i0 := 1 + (rng t).1 % (n - 3)
      let k0 := 1 + (rng t).2 % (n - 3)
      if i0 = k0 then st
      else
        let i := min i0 k0
        let k := max i0 k0
        let rr := (cur.set i (cur.getD k 0)).set k (cur.getD i 0)
        let move := (cur.getD i 0, cur.getD k 0)
        let c := route_cost d rr
        let isTabu : Bool :=
          match tabu.lookup move with
          | some expiry => decide (t < expiry)
          | none => false
        if isTabu = false ∨ c < route_cost d best then
          let best2 := if c < route_cost d best then rr else best
          (best2, rr, (move, t + tenure) :: tabu)
        else st
    ((List.range iters).foldl step (route, route, [])).1

/-- `route_solver.py:solve_tsp(points, dist_mat, improve_method, seed,
tabu_iters)`; `improve_method in (None, "none")` is embedded as the string
`"none"`.  An unrecognized `improve_method` falls through to `return route`. -/
def rs_solve_tsp (d : ℕ → ℕ → ℚ) (rng : ℕ → ℕ × ℕ) (n : ℕ)
    (improve_method : String) (tabu_iters : ℕ) : List ℕ :=
  if n ≤ 1 then [0, 0]
  else
    let route := rs_nearest_neighbor d n
    if improve_method = "none" then route
    else if improve_method = "two_opt" then rs_two_opt d 30 route
    else if improve_method = "tabu" then tabu_search d rng route tabu_iters 20
    else route

/-- Total travel duration of a tour under a matrix: the sum of consecutive
edge entries, as accumulated by `pipeline.py:_simulate_timeline`. -/
def tour_duration (route : List ℕ) (mat : ℕ → ℕ → ℚ) : ℚ :=
  ((route.zip route.tail).map fun p => mat p.1 p.2).sum

/-- `pipeline.py:_simulate_timeline(route_points, dist_mat, start_min,
end_at)`: cumulative times from the back-solved or given start. -/
def simulate_timeline (route : List ℕ) (mat : ℕ → ℕ → ℚ)
    (start_min end_at : Option ℚ) : List ℚ :=
  let seg := (route.zip route.tail).map fun p => mat p.1 p.2
  let start : ℚ :=
    match start_min, end_at with
    | some s, _ => s
    | none, some e => e - seg.sum
    | none, none => 0
  List.scanl (· + ·) start seg

/-- The chunk loop shared by `pipeline.py:_split_vehicles_df` and
`clustering.py:split_requests_into_buses` (`for i in range(0, len(g), cap)`
with `break` at the vehicle cap), for a positive `cap`. -/
def chunkCap {α : Type} (cap : ℕ) : ℕ → List α → List (List α)
  | _, [] => []
  | 0, _ => []
  | m + 1, l => l.take cap :: chunkCap cap m (l.drop cap)

/-- `pipeline.py:_split_vehicles_df(g, cap=..., max_veh=...)`; raises
`ConfigError` on non-positive capacity or vehicle cap. -/
def split_vehicles_df {α : Type} (g : List α) (cap max_veh : ℤ) :
    Except String (List (List α)) :=
  if cap ≤ 0 then .error ("capacity must be > 0 (got " ++ toString cap ++ ")")
  else if max_veh ≤ 0 then
    .error ("max_vehicles_per_center_slot must be > 0 (got " ++ toString max_veh ++ ")")
  else .ok (chunkCap cap.toNat max_veh.toNat g)

/-- `clustering.py:split_requests_into_buses`.  `distToCenter` abstracts the
row-wise `_haversine_km` to the center; the `sort_values` call of the `center_dist`
strategy is embedded as a sort by that key (tie order is not
load-bearing).  There is no capacity validation in the source: the Python builtin
`range(0, len, 0)` raises `ValueError`, a negative `cap` yields an empty
range, and a non-positive `max_bus` makes the `break` fire immediately. -/
def split_requests_into_buses {α : Type} (distToCenter : α → ℚ) (g : List α)
    (cap max_bus : ℤ) (strategy : String) : Except String (List (List α)) :=
  if g.length = 0 then .ok []
  else
    let df := if strategy = "center_dist" then
        g.insertionSort (fun a b => distToCenter a ≤ distToCenter b)
      else g
    if cap = 0 then .error "range() arg 3 must not be zero"
    else if cap < 0 then .ok []
    else if max_bus ≤ 0 then .ok []
    else .ok (chunkCap cap.toNat max_bus.toNat df)

/-- One event row of `events.csv`, the columns `metrics.py:compute_kpis`
requires. -/
structure Event where
  pickup_promise_min : ℚ
  pickup_actual_min : ℚ
  center_promise_min : ℚ
  center_actual_min : ℚ
  ride_time_min : ℚ
deriving DecidableEq

/-- The KPI dictionary returned by `metrics.py:compute_kpis`, in field
order. -/
structure KpiSummary where
  pickup_late_mean : ℚ
  pickup_late_p95 : ℚ
  pickup_late_max : ℚ
  center_late_mean : ℚ
  center_late_p95 : ℚ
  center_late_max : ℚ
  pickup_on_time_rate : ℚ
  center_on_time_rate : ℚ
  ride_time_mean : ℚ
  ride_time_p95 : ℚ
  ride_time_max : ℚ
deriving DecidableEq

/-- `np.max` over a nonempty list (0 on the empty list, which `_summ`
never reaches). -/
def listMax (x : List ℚ) : ℚ :=
  match x with
  | [] => 0
  | h :: t => t.foldl max h

/-- `np.percentile(x, 95)` with the default linear interpolation:
rank `0.95 * (n - 1)` into the ascending sort of `x`. -/
def percentile95 (x : List ℚ) : ℚ :=
  let s := x.insertionSort (fun a b => a ≤ b)
  let n := s.length
  let rank : ℚ := 95 * ((n : ℚ) - 1) / 100
  let lo : ℕ := (⌊rank⌋).toNat
  let a := s.getD lo 0
  let b := s.getD (lo + 1) a
  a + (rank - (lo : ℚ)) * (b - a)

/-- `metrics.py:_summ(x)`: `(mean, p95, max)`, `(0,0,0)` on empty input. -/
def summ (x : List ℚ) : ℚ × ℚ × ℚ :=
  if x.length = 0 then (0, 0, 0)
  else (x.sum / (x.length : ℚ), percentile95 x, listMax x)

/-- `metrics.py:compute_kpis(events_df, cfg)`.  `onTimeThr` is
`cfg["kpi"]["on_time_threshold_min"]` (`none` when the key is missing); the
required-columns check has no counterpart because `Event` rows always carry
all five fields. -/
def compute_kpis (events : List Event) (onTimeThr : Option ℚ) :
    Except String KpiSummary :=
  if events.length = 0 then
    .ok ⟨0, 0, 0, 0, 0, 0, 1, 1, 0, 0, 0⟩
  else
    match onTimeThr with
    | none => .error "Missing kpi.on_time_threshold_min in config"
    | some thr =>
      let pickup_late := events.map fun e => e.pickup_actual_min - e.pickup_promise_min
      let center_late := events.map fun e => e.center_actual_min - e.center_promise_min
      let ride_time := events.map fun e => e.ride_time_min
      let ps := summ pickup_late
      let cs := summ center_late
      let rsm := summ ride_time
      let pot := ((pickup_late.filter fun v => v ≤ thr).length : ℚ) / (events.length : ℚ)
      let cot := ((center_late.filter fun v => v ≤ thr).length : ℚ) / (events.length : ℚ)
      .ok ⟨ps.1, ps.2.1, ps.2.2, cs.1, cs.2.1, cs.2.2, pot, cot, rsm.1, rsm.2.1, rsm.2.2⟩

/-- `time_model.py:EuclidTimeModel` (the `rng` attribute is the noise
oracle passed to `sample_travel_min` below). -/
structure EuclidTimeModel where
  default_speed_kmh : ℚ
  speed_multiplier : ℚ
  detour_factor : ℚ
  noise_sigma : ℚ
  seed : ℤ := 123
deriving DecidableEq

/-- `EuclidTimeModel.mean_travel_min`; `hav a b` abstracts
`haversine_km(a_lat, a_lon, b_lat, b_lon)`. -/
def EuclidTimeModel.mean_travel_min (m : EuclidTimeModel)
    (hav : ℚ × ℚ → ℚ × ℚ → ℚ) (a b : ℚ × ℚ) : ℚ :=
  let dist_km := hav a b * m.detour_factor
  let speed := max (1 / 1000000) (m.default_speed_kmh * m.speed_multiplier)
  dist_km / speed * 60

/-- `EuclidTimeModel.sample_travel_min`; `noise` abstracts the drawn
`rng.lognormal(mean=-sigma^2/2, sigma)` factor, which the source multiplies
in only when `noise_sigma > 0`. -/
def EuclidTimeModel.sample_travel_min (m : EuclidTimeModel)
    (hav : ℚ × ℚ → ℚ × ℚ → ℚ) (noise : ℚ) (a b : ℚ × ℚ) : ℚ :=
  let mu := m.mean_travel_min hav a b
  if m.noise_sigma ≤ 0 then mu else mu * noise

/-- `time_model.py:RoadTimeModel` after construction.  The external
`networkx` / `osmnx` queries are oracles: `directedSec u v` is
`nx.shortest_path_length(G, u, v, weight="travel_time_sec")` (`none` models
the caught no-path exception), `undirectedSec` the same on the undirected
mirror `G_u`, `nearestNode` the cached nearest-node resolution, and `havKm`
the haversine fallback geometry. -/
structure RoadTimeModel where
  nearestNode : ℚ × ℚ → ℕ
  directedSec : ℕ → ℕ → Option ℚ
  undirectedSec : ℕ → ℕ → Option ℚ
  havKm : ℚ × ℚ → ℚ × ℚ → ℚ
  detour_factor : ℚ
  fallback_speed_kph : ℚ
  speed_multiplier : ℚ

/-- `RoadTimeModel._od_time_min(u, v)`: directed search, undirected
fallback, `nan` (here `none`) when both fail; seconds are converted to
minutes. -/
def RoadTimeModel.od_time_min (m : RoadTimeModel) (u v : ℕ) : Option ℚ :=
  match m.directedSec u v with
  | some sec => some (sec / 60)
  | none =>
    match m.undirectedSec u v with
    | some sec => some (sec / 60)
    | none => none

/-- `RoadTimeModel.mean_travel_min`: resolve nodes, `0.1` for identical
nodes, shortest-path minutes when available, geometric haversine fallback
otherwise; never an error. -/
def RoadTimeModel.mean_travel_min (m : RoadTimeModel) (a b : ℚ × ℚ) : ℚ :=
  let u := m.nearestNode a
  let v := m.nearestNode b
  if u = v then 1 / 10
  else
    match m.od_time_min u v with
    | some t => t
    | none =>
      let km := m.havKm a b * m.detour_factor
      let speed_kph := max 1 (m.fallback_speed_kph * m.speed_multiplier)
      km / speed_kph * 60

/-- `RoadTimeModel.sample_travel_min`: identical to the mean (no noise layer
in the road model). -/
def RoadTimeModel.sample_travel_min (m : RoadTimeModel) (a b : ℚ × ℚ) : ℚ :=
  m.mean_travel_min a b

/-- The two travel-time backends `time_model.py:build_time_model` can
construct. -/
inductive ModelKind where
  | road : ModelKind
  | euclid : ModelKind
deriving DecidableEq

/-- Python `str.lower()`, modelled as the character-wise lowercase map
(structurally recursive so that concrete instances evaluate). -/
def strLower (s : String) : String := ⟨s.data.map Char.toLower⟩

/-- The dispatch of `time_model.py:build_time_model`:
`kind = str(tm.get("kind", "euclid")).lower()`, the `road` branch on exact
match, and the euclid default for every other string — there is no
unknown-kind error in the source. -/
def build_time_model_kind (kind : String) : ModelKind :=
  if strLower kind = "road" then ModelKind.road else ModelKind.euclid

/-- Concrete integer-gap cost function used only to instantiate witnesses. -/
def demoAbsDist : ℕ → ℕ → ℚ :=
  fun i j => ((max i j - min i j : ℕ) : ℚ)

/-- Concrete road model whose directed graph has no paths while its
undirected mirror connects node 0 to node 1 in 120 seconds; used only to
instantiate witnesses. -/
def roadDemoModel : RoadTimeModel where
  nearestNode := fun c => if c.1 = 0 then 0 else 1
  directedSec := fun _ _ => none
  undirectedSec := fun u v => if u = 0 ∧ v = 1 then some 120 else none
  havKm := fun _ _ => 1
  detour_factor := 1
  fallback_speed_kph := 25
  speed_multiplier := 1

/-! ### Generic list lemmas -/

theorem scanl_add_getLast? (a : ℚ) (l : List ℚ) :
    (List.scanl (· + ·) a l).getLast? = some (a + l.sum) := by
  induction l generalizing a with
  | nil => simp [List.scanl_nil]
  | cons x xs ih =>
    rw [List.scanl_cons]
    have hne : List.scanl (· + ·) (a + x) xs ≠ [] := by
      cases xs <;> simp [List.scanl_nil, List.scanl_cons]
    rw [List.getLast?_append, ih]
    simp [add_assoc]

theorem scanl_add_head? (a : ℚ) (l : List ℚ) :
    (List.scanl (· + ·) a l).head? = some a := by
  cases l <;> simp [List.scanl_nil, List.scanl_cons]

theorem getLast?_drop_of_lt {α : Type} (l : List α) (j : ℕ) (h : j < l.length) :
    (l.drop j).getLast? = l.getLast? := by
  induction j generalizing l with
  | zero => simp
  | succ j ih =>
    cases l with
    | nil => simp at h
    | cons a t =>
      have ht : j < t.length := by simpa using h
      have htne : t ≠ [] := by
        cases t
        · simp at ht
        · simp
      calc ((a :: t).drop (j + 1)).getLast? = (t.drop j).getLast? := by simp
        _ = t.getLast? := ih t ht
        _ = (a :: t).getLast? := by
            cases t
            · simp at ht
            · simp [List.getLast?]

/-! ### Structure of a single 2-opt move -/

theorem twoOptSwap_decomp (r : List ℕ) (i j : ℕ) (hij : i ≤ j) :
    r = r.take i ++ (r.drop i).take (j - i) ++ r.drop j := by
  have h1 : r.take j = r.take i ++ (r.drop i).take (j - i) := by
    have := List.take_add r i (j - i)
    rwa [Nat.add_sub_cancel' hij] at this
  calc r = r.take j ++ r.drop j := (List.take_append_drop j r).symm
    _ = r.take i ++ (r.drop i).take (j - i) ++ r.drop j := by rw [h1]

theorem twoOptSwap_perm (r : List ℕ) (i j : ℕ) (hij : i ≤ j) :
    (twoOptSwap r i j).Perm r := by
  unfold twoOptSwap
  conv_rhs => rw [twoOptSwap_decomp r i j hij]
  rw [List.append_assoc, List.append_assoc]
  exact List.Perm.append_left _
    (List.Perm.append_right _ (List.reverse_perm _))

theorem twoOptSwap_head? (r : List ℕ) (i j : ℕ) (hi : 1 ≤ i) :
    (twoOptSwap r i j).head? = r.head? := by
  cases r with
  | nil => simp [twoOptSwap]
  | cons a t =>
    unfold twoOptSwap
    cases i with
    | zero => omega
    | succ i' => simp [List.take_succ_cons]

theorem twoOptSwap_getLast? (r : List ℕ) (i j : ℕ) (hj : j < r.length) :
    (twoOptSwap r i j).getLast? = r.getLast? := by
  unfold twoOptSwap
  have hne : r.drop j ≠ [] := by
    intro h
    have := congrArg List.length h
    simp at this
    omega
  rw [List.append_assoc, List.getLast?_append]
  rw [List.getLast?_append]
  have h1 : (r.drop j).getLast? = r.getLast? := getLast?_drop_of_lt r j hj
  cases hlast : (r.drop j).getLast? with
  | none => simp [List.getLast?_eq_none_iff] at hlast; omega
  | some v => simp [Option.or, ← h1, hlast]

/-! ### Pair schedules stay inside the tour interior -/

theorem mem_tspPairs (L : ℕ) (p : ℕ × ℕ) (hp : p ∈ tspPairs L) :
    1 ≤ p.1 ∧ p.1 < p.2 ∧ p.2 < L := by
  unfold tspPairs at hp
  rw [List.mem_flatten] at hp
  obtain ⟨l, hl, hpl⟩ := hp
  rw [List.mem_map] at hl
  obtain ⟨i, hi, rfl⟩ := hl
  rw [List.mem_range'_1] at hi
  rw [List.mem_filterMap] at hpl
  obtain ⟨j, hj, hje⟩ := hpl
  rw [List.mem_range'_1] at hj
  by_cases h1 : j = i + 1
  · simp [h1] at hje
  · simp [h1] at hje
    obtain ⟨rfl, rfl⟩ := hje
    omega

theorem mem_rsPairs (L : ℕ) (p : ℕ × ℕ) (hp : p ∈ rsPairs L) :
    1 ≤ p.1 ∧ p.1 < p.2 ∧ p.2 < L := by
  unfold rsPairs at hp
  rw [List.mem_flatten] at hp
  obtain ⟨l, hl, hpl⟩ := hp
  rw [List.mem_map] at hl
  obtain ⟨i, hi, rfl⟩ := hl
  rw [List.mem_range'_1] at hi
  rw [List.mem_map] at hpl
  obtain ⟨k, hk, hke⟩ := hpl
  rw [List.mem_range'_1] at hk
  obtain ⟨rfl⟩ := hke
  simp
  omega

/-! ### One sweep: cost behaviour and structural preservation -/

theorem twoOptPassOn_cost_le (d : ℕ → ℕ → ℚ) (ps : List (ℕ × ℕ)) (s : List ℕ) :
    route_cost d (twoOptPassOn d ps s) ≤ route_cost d s := by
  induction ps generalizing s with
  | nil => simp [twoOptPassOn]
  | cons p ps ih =>
    show route_cost d (twoOptPassOn d ps (twoOptStep d s p)) ≤ route_cost d s
    refine le_trans (ih (twoOptStep d s p)) ?_
    unfold twoOptStep
    dsimp only
    split
    · rename_i h
      have heps : 0 < eps := by norm_num [eps]
      linarith
    · exact le_refl _

theorem twoOptPassOn_eq_or_lt (d : ℕ → ℕ → ℚ) (ps : List (ℕ × ℕ)) (r : List ℕ) :
    twoOptPassOn d ps r = r ∨
      route_cost d (twoOptPassOn d ps r) + eps < route_cost d r := by
  suffices h : ∀ s, (s = r ∨ route_cost d s + eps < route_cost d r) →
      (twoOptPassOn d ps s = r ∨
        route_cost d (twoOptPassOn d ps s) + eps < route_cost d r) from
    h r (Or.inl rfl)
  induction ps with
  | nil => intro s hs; simpa [twoOptPassOn] using hs
  | cons p ps ih =>
    intro s hs
    show twoOptPassOn d ps (twoOptStep d s p) = r ∨ _
    refine ih (twoOptStep d s p) ?_
    unfold twoOptStep
    dsimp only
    split
    · rename_i h
      right
      have hsr : route_cost d s ≤ route_cost d r := by
        rcases hs with rfl | hs
        · exact le_refl _
        · have heps : 0 < eps := by norm_num [eps]
          linarith
      linarith
    · exact hs

theorem twoOptPassOn_preserves (d : ℕ → ℕ → ℚ) (ps : List (ℕ × ℕ)) (r : List ℕ)
    (hb : ∀ p ∈ ps, 1 ≤ p.1 ∧ p.1 < p.2 ∧ p.2 < r.length) :
    ∀ s, s.Perm r → s.head? = r.head? → s.getLast? = r.getLast? →
      (twoOptPassOn d ps s).Perm r ∧
        (twoOptPassOn d ps s).head? = r.head? ∧
        (twoOptPassOn d ps s).getLast? = r.getLast? := by
  induction ps with
  | nil => intro s h1 h2 h3; exact ⟨h1, h2, h3⟩
  | cons p ps ih =>
    intro s h1 h2 h3
    obtain ⟨hp1, hp2, hp3⟩ := hb p (List.mem_cons_self p ps)
    have hb' : ∀ q ∈ ps, 1 ≤ q.1 ∧ q.1 < q.2 ∧ q.2 < r.length := fun q hq =>
      hb q (List.mem_cons_of_mem p hq)
    have hlen : s.length = r.length := h1.length_eq
    have hstep : (twoOptStep d s p).Perm r ∧
        (twoOptStep d s p).head? = r.head? ∧
        (twoOptStep d s p).getLast? = r.getLast? := by
      unfold twoOptStep
      dsimp only
      split
      · refine ⟨(twoOptSwap_perm s p.1 p.2 (le_of_lt hp2)).trans h1, ?_, ?_⟩
        · rw [twoOptSwap_head? s p.1 p.2 hp1]; exact h2
        · rw [twoOptSwap_getLast? s p.1 p.2 (by omega)]; exact h3
      · exact ⟨h1, h2, h3⟩
    exact ih hb' (twoOptStep d s p) hstep.1 hstep.2.1 hstep.2.2

theorem tspPass_preserves (d : ℕ → ℕ → ℚ) (s : List ℕ) :
    (tspPass d s).Perm s ∧ (tspPass d s).head? = s.head? ∧
      (tspPass d s).getLast? = s.getLast? :=
  twoOptPassOn_preserves d (tspPairs s.length) s
    (fun p hp => mem_tspPairs s.length p hp) s (List.Perm.refl s) rfl rfl

theorem rsPass_preserves (d : ℕ → ℕ → ℚ) (s : List ℕ) :
    (rsPass d s).Perm s ∧ (rsPass d s).head? = s.head? ∧
      (rsPass d s).getLast? = s.getLast? :=
  twoOptPassOn_preserves d (rsPairs s.length) s
    (fun p hp => mem_rsPairs s.length p hp) s (List.Perm.refl s) rfl rfl

/-! ### The 2-opt loops -/

theorem twoOptLoop_preserves (p : List ℕ → List ℕ)
    (hp : ∀ s, (p s).Perm s ∧ (p s).head? = s.head? ∧ (p s).getLast? = s.getLast?) :
    ∀ (f : ℕ) (r : List ℕ), (twoOptLoop p f r).Perm r ∧
      (twoOptLoop p f r).head? = r.head? ∧
      (twoOptLoop p f r).getLast? = r.getLast? := by
  intro f
  induction f with
  | zero => intro r; exact ⟨List.Perm.refl r, rfl, rfl⟩
  | succ f ih =>
    intro r
    show (if p r = r then r else twoOptLoop p f (p r)).Perm r ∧
      (if p r = r then r else twoOptLoop p f (p r)).head? = r.head? ∧
      (if p r = r then r else twoOptLoop p f (p r)).getLast? = r.getLast?
    split
    · exact ⟨List.Perm.refl r, rfl, rfl⟩
    · obtain ⟨h1, h2, h3⟩ := ih (p r)
      obtain ⟨g1, g2, g3⟩ := hp r
      exact ⟨h1.trans g1, h2.trans g2, h3.trans g3⟩

theorem twoOptLoop_cost_le (d : ℕ → ℕ → ℚ) (p : List ℕ → List ℕ)
    (hmono : ∀ s, route_cost d (p s) ≤ route_cost d s) :
    ∀ (f : ℕ) (r : List ℕ), route_cost d (twoOptLoop p f r) ≤ route_cost d r := by
  intro f
  induction f with
  | zero => intro r; exact le_refl _
  | succ f ih =>
    intro r
    show route_cost d (if p r = r then r else twoOptLoop p f (p r)) ≤ _
    split
    · exact le_refl _
    · exact le_trans (ih (p r)) (hmono r)

theorem rsLoop_count (p : List ℕ → List ℕ) :
    ∀ (f done : ℕ) (b : List ℕ), (rsLoop p f done b).2 ≤ done + f := by
  intro f
  induction f with
  | zero => intro done b; simp [rsLoop]
  | succ f ih =>
    intro done b
    show (if p b = b then (p b, done + 1) else rsLoop p f (done + 1) (p b)).2 ≤ _
    split
    · simp
    · have := ih (done + 1) (p b)
      omega

theorem rsLoop_fst_cost_le (d : ℕ → ℕ → ℚ) (p : List ℕ → List ℕ)
    (hmono : ∀ s, route_cost d (p s) ≤ route_cost d s) :
    ∀ (f done : ℕ) (b : List ℕ), route_cost d (rsLoop p f done b).1 ≤ route_cost d b := by
  intro f
  induction f with
  | zero => intro done b; exact le_refl _
  | succ f ih =>
    intro done b
    show route_cost d (if p b = b then (p b, done + 1) else rsLoop p f (done + 1) (p b)).1 ≤ _
    split
    · rename_i h; rw [h]
    · exact le_trans (ih (done + 1) (p b)) (hmono b)

theorem rsLoop_preserves (p : List ℕ → List ℕ)
    (hp : ∀ s, (p s).Perm s ∧ (p s).head? = s.head? ∧ (p s).getLast? = s.getLast?) :
    ∀ (f done : ℕ) (b : List ℕ), (rsLoop p f done b).1.Perm b ∧
      (rsLoop p f done b).1.head? = b.head? ∧
      (rsLoop p f done b).1.getLast? = b.getLast? := by
  intro f
  induction f with
  | zero => intro done b; exact ⟨List.Perm.refl b, rfl, rfl⟩
  | succ f ih =>
    intro done b
    show (if p b = b then (p b, done + 1) else rsLoop p f (done + 1) (p b)).1.Perm b ∧
      (if p b = b then (p b, done + 1) else rsLoop p f (done + 1) (p b)).1.head? = b.head? ∧
      (if p b = b then (p b, done + 1) else rsLoop p f (done + 1) (p b)).1.getLast? = b.getLast?
    split
    · rename_i h; rw [h]; exact ⟨List.Perm.refl b, rfl, rfl⟩
    · obtain ⟨h1, h2, h3⟩ := ih (done + 1) (p b)
      obtain ⟨g1, g2, g3⟩ := hp b
      exact ⟨h1.trans g1, h2.trans g2, h3.trans g3⟩

theorem rsLoop_of_fix (p : List ℕ → List ℕ) (f done : ℕ) (b : List ℕ)
    (h : p b = b) : (rsLoop p f done b).1 = b := by
  cases f with
  | zero => rfl
  | succ f => show (if p b = b then (p b, done + 1) else _).1 = b; simp [h]

/-! ### Cost bounds and sufficient fuel for the uncapped loop -/

theorem foldr_max_nonneg (l : List ℚ) : 0 ≤ l.foldr max 0 := by
  induction l with
  | nil => simp
  | cons x xs ih => exact le_trans ih (le_max_right x _)

theorem le_foldr_max (l : List ℚ) (x : ℚ) (hx : x ∈ l) : x ≤ l.foldr max 0 := by
  induction l with
  | nil => simp at hx
  | cons y ys ih =>
    rcases List.mem_cons.mp hx with rfl | hx'
    · exact le_max_left x _
    · exact le_trans (ih hx') (le_max_right y _)

theorem list_sum_le_length_mul (l : List ℚ) (M : ℚ) (h : ∀ x ∈ l, x ≤ M) :
    l.sum ≤ (l.length : ℚ) * M := by
  induction l with
  | nil => simp
  | cons x xs ih =>
    have hx : x ≤ M := h x (List.mem_cons_self x xs)
    have hxs : xs.sum ≤ (xs.length : ℚ) * M :=
      ih fun y hy => h y (List.mem_cons_of_mem x hy)
    simp only [List.sum_cons, List.length_cons]
    push_cast
    nlinarith

theorem abs_list_sum_le (l : List ℚ) : |l.sum| ≤ (l.map fun x => |x|).sum := by
  induction l with
  | nil => simp
  | cons x xs ih =>
    simp only [List.sum_cons, List.map_cons]
    exact le_trans (abs_add x xs.sum) (by linarith)

theorem route_cost_abs_le (d : ℕ → ℕ → ℚ) (r s : List ℕ) (hs : s.Perm r) :
    |route_cost d s| ≤ (r.length : ℚ) * pairAbsMax d r := by
  have hM0 : 0 ≤ pairAbsMax d r := foldr_max_nonneg _
  have hterm : ∀ q ∈ (s.zip s.tail).map (fun p => d p.1 p.2),
      |q| ≤ pairAbsMax d r := by
    intro q hq
    rw [List.mem_map] at hq
    obtain ⟨p, hp, rfl⟩ := hq
    have hmem := List.of_mem_zip hp
    have ha : p.1 ∈ r := hs.mem_iff.mp hmem.1
    have hb : p.2 ∈ r := hs.mem_iff.mp (List.mem_of_mem_tail hmem.2)
    refine le_foldr_max _ _ ?_
    rw [List.mem_flatMap]
    exact ⟨p.1, ha, List.mem_map.mpr ⟨p.2, hb, rfl⟩⟩
  have h1 : |route_cost d s| ≤
      (((s.zip s.tail).map fun p => d p.1 p.2).map fun x => |x|).sum :=
    abs_list_sum_le _
  have h2 : (((s.zip s.tail).map fun p => d p.1 p.2).map fun x => |x|).sum ≤
      ((((s.zip s.tail).map fun p => d p.1 p.2).map fun x => |x|).length : ℚ) *
        pairAbsMax d r := by
    refine list_sum_le_length_mul _ _ ?_
    intro x hx
    rw [List.mem_map] at hx
    obtain ⟨q, hq, rfl⟩ := hx
    exact hterm q hq
  have hlen : (((s.zip s.tail).map fun p => d p.1 p.2).map fun x => |x|).length ≤
      r.length := by
    simp [List.length_zip]
    rw [← hs.length_eq]
    omega
  calc |route_cost d s| ≤ _ := h1
    _ ≤ _ := h2
    _ ≤ (r.length : ℚ) * pairAbsMax d r :=
        mul_le_mul_of_nonneg_right (by exact_mod_cast hlen) hM0

theorem twoOptLoop_reaches_fix (d : ℕ → ℕ → ℚ) (p : List ℕ → List ℕ) (B : ℚ)
    (r : List ℕ)
    (hdec : ∀ s, p s = s ∨ route_cost d (p s) + eps < route_cost d s)
    (hperm : ∀ s, (p s).Perm s)
    (hbound : ∀ s, s.Perm r → -B ≤ route_cost d s) :
    ∀ (f : ℕ) (s : List ℕ), s.Perm r → route_cost d s + B < eps * f →
      p (twoOptLoop p f s) = twoOptLoop p f s := by
  intro f
  induction f with
  | zero =>
    intro s hsr hc
    have := hbound s hsr
    simp at hc
    linarith
  | succ f ih =>
    intro s hsr hc
    show p (if p s = s then s else twoOptLoop p f (p s)) =
      (if p s = s then s else twoOptLoop p f (p s))
    split
    · rename_i h; exact h
    · rename_i h
      rcases hdec s with h' | h'
      · exact absurd h' h
      · have heps : (0 : ℚ) < eps := by norm_num [eps]
        refine ih (p s) ((hperm s).trans hsr) ?_
        have : eps * (f + 1 : ℕ) = eps * f + eps := by push_cast; ring
        linarith

theorem tsp_two_opt_fix (d : ℕ → ℕ → ℚ) (r : List ℕ) :
    tspPass d (tsp_two_opt d r) = tsp_two_opt d r := by
  have heps : (0 : ℚ) < eps := by norm_num [eps]
  set B := (r.length : ℚ) * pairAbsMax d r with hB
  have hB0 : 0 ≤ B := by
    have := route_cost_abs_le d r r (List.Perm.refl r)
    have := abs_nonneg (route_cost d r)
    linarith
  refine twoOptLoop_reaches_fix d (tspPass d) B r
    (fun s => twoOptPassOn_eq_or_lt d (tspPairs s.length) s)
    (fun s => (tspPass_preserves d s).1)
    (fun s hs => by
      have := route_cost_abs_le d r s hs
      have := neg_abs_le (route_cost d s)
      linarith)
    (tspFuel d r) r (List.Perm.refl r) ?_
  have h1 : route_cost d r ≤ B := by
    have := route_cost_abs_le d r r (List.Perm.refl r)
    have := le_abs_self (route_cost d r)
    linarith
  have h2 : (2 * (r.length : ℚ) * pairAbsMax d r) / eps ≤
      ((⌈2 * (r.length : ℚ) * pairAbsMax d r / eps⌉.toNat : ℤ) : ℚ) := by
    have hceil := Int.le_ceil (2 * (r.length : ℚ) * pairAbsMax d r / eps)
    have hnn : (0 : ℚ) ≤ 2 * (r.length : ℚ) * pairAbsMax d r / eps := by
      apply div_nonneg _ (le_of_lt heps)
      linarith
    have : (0 : ℤ) ≤ ⌈2 * (r.length : ℚ) * pairAbsMax d r / eps⌉ := by
      by_contra hneg
      push_neg at hneg
      have : ((⌈2 * (r.length : ℚ) * pairAbsMax d r / eps⌉ : ℤ) : ℚ) < 0 := by
        exact_mod_cast hneg
      linarith
    rw [Int.toNat_of_nonneg this]
    exact hceil
  have h3 : 2 * B ≤ eps * ((⌈2 * (r.length : ℚ) * pairAbsMax d r / eps⌉.toNat : ℤ) : ℚ) := by
    rw [hB]
    have := mul_le_mul_of_nonneg_left h2 (le_of_lt heps)
    calc 2 * ((r.length : ℚ) * pairAbsMax d r)
        = eps * (2 * (r.length : ℚ) * pairAbsMax d r / eps) := by
          field_simp
          ring
      _ ≤ _ := this
  have h4 : eps * (tspFuel d r : ℚ) =
      eps * ((⌈2 * (r.length : ℚ) * pairAbsMax d r / eps⌉.toNat : ℤ) : ℚ) + eps := by
    unfold tspFuel
    push_cast
    ring
  rw [h4]
  linarith

/-! ### Nearest-neighbor construction -/

theorem argminFirst_mem (f : ℕ → ℚ) :
    ∀ (l : List ℕ) (best : ℕ), argminFirst f best l = best ∨ argminFirst f best l ∈ l := by
  intro l
  induction l with
  | nil => intro best; left; rfl
  | cons x xs ih =>
    intro best
    simp only [argminFirst]
    split
    · rcases ih x with h | h
      · right; rw [h]; exact List.mem_cons_self x xs
      · right; exact List.mem_cons_of_mem x h
    · rcases ih best with h | h
      · left; exact h
      · right; exact List.mem_cons_of_mem x h

theorem nnLoop_perm (d : ℕ → ℕ → ℚ) :
    ∀ (f : ℕ) (l : List ℕ) (cur : ℕ), l.length = f → (nnLoop d f cur l).Perm l := by
  intro f
  induction f with
  | zero =>
    intro l cur hl
    rw [List.length_eq_zero] at hl
    subst hl
    exact List.Perm.refl _
  | succ f ih =>
    intro l cur hl
    cases l with
    | nil => simp at hl
    | cons x xs =>
      show (let nxt := argminFirst (d cur) x xs
        nxt :: nnLoop d f nxt ((x :: xs).erase nxt)).Perm (x :: xs)
      have hmem : argminFirst (d cur) x xs ∈ x :: xs := by
        rcases argminFirst_mem (d cur) xs x with h | h
        · rw [h]; exact List.mem_cons_self x xs
        · exact List.mem_cons_of_mem x h
      have hlen : ((x :: xs).erase (argminFirst (d cur) x xs)).length = f := by
        rw [List.length_erase_of_mem hmem]
        simp at hl ⊢
        omega
      have hrec := ih ((x :: xs).erase (argminFirst (d cur) x xs))
        (argminFirst (d cur) x xs) hlen
      exact (List.Perm.cons _ hrec).trans (List.perm_cons_erase hmem).symm

theorem nn_route_shape (d : ℕ → ℕ → ℚ) (n : ℕ) :
    (nn_route d n).Perm (0 :: (List.range' 1 (n - 1) ++ [0])) := by
  unfold nn_route
  refine List.Perm.cons 0 (List.Perm.append_right [0] ?_)
  exact nnLoop_perm d (n - 1) (List.range' 1 (n - 1)) 0 (List.length_range' 1 1 (n - 1))

theorem nn_route_head? (d : ℕ → ℕ → ℚ) (n : ℕ) : (nn_route d n).head? = some 0 := rfl

theorem nn_route_getLast? (d : ℕ → ℕ → ℚ) (n : ℕ) :
    (nn_route d n).getLast? = some 0 := by
  unfold nn_route
  rw [← List.cons_append]
  exact List.getLast?_concat _

theorem nn_route_length (d : ℕ → ℕ → ℚ) (n : ℕ) (hn : 1 ≤ n) :
    (nn_route d n).length = n + 1 := by
  have := (nn_route_shape d n).length_eq
  simp [List.length_range'] at this
  omega

theorem nn_route_count (d : ℕ → ℕ → ℚ) (n : ℕ) :
    (∀ i, 1 ≤ i → i < n → (nn_route d n).count i = 1) ∧
      (nn_route d n).count 0 = 2 := by
  have hperm := nn_route_shape d n
  constructor
  · intro i h1 h2
    rw [hperm.count_eq]
    rw [List.count_cons, List.count_append]
    have hmem : i ∈ List.range' 1 (n - 1) := by
      rw [List.mem_range'_1]; omega
    have hcount : (List.range' 1 (n - 1)).count i = 1 :=
      List.count_eq_one_of_mem (List.nodup_range' 1 (n - 1)) hmem
    have hzero : (0 : ℕ) ≠ i := by omega
    simp [hcount, hzero, List.count_singleton]
  · rw [hperm.count_eq]
    rw [List.count_cons, List.count_append]
    have hnot : (0 : ℕ) ∉ List.range' 1 (n - 1) := by
      intro h
      rw [List.mem_range'_1] at h
      omega
    have hcount : (List.range' 1 (n - 1)).count 0 = 0 :=
      List.count_eq_zero_of_not_mem hnot
    simp [hcount, List.count_singleton]

/-! ### Chunk partitioning -/

theorem chunk_ceilDiv_zero (c : ℕ) (hc : 0 < c) : (0 + c - 1) / c = 0 :=
  Nat.div_eq_of_lt (by omega)

theorem chunk_ceilDiv_one (c k : ℕ) (hc : 0 < c) (h1 : 1 ≤ k) (h2 : k ≤ c) :
    (k + c - 1) / c = 1 := by
  have he : k + c - 1 = (k - 1) + c := by omega
  rw [he, Nat.add_div_right _ hc, Nat.div_eq_of_lt (by omega)]

theorem chunk_ceilDiv_step (c k : ℕ) (hc : 0 < c) (h : c < k) :
    (k + c - 1) / c = ((k - c) + c - 1) / c + 1 := by
  have he : k + c - 1 = ((k - c) + c - 1) + c := by omega
  rw [he, Nat.add_div_right _ hc]

theorem chunkCap_length {α : Type} (cap : ℕ) (hc : 0 < cap) :
    ∀ (m : ℕ) (g : List α),
      (chunkCap cap m g).length = min ((g.length + cap - 1) / cap) m := by
  intro m
  induction m with
  | zero => intro g; cases g <;> simp [chunkCap]
  | succ m ih =>
    intro g
    cases g with
    | nil =>
      have h0 : (cap - 1) / cap = 0 := Nat.div_eq_of_lt (by omega)
      simp [chunkCap, h0]
    | cons x xs =>
      show (List.take cap (x :: xs) :: chunkCap cap m (List.drop cap (x :: xs))).length = _
      rw [List.length_cons, ih]
      rw [List.length_drop]
      by_cases h : (x :: xs).length ≤ cap
      · have h0 : (x :: xs).length - cap = 0 := by omega
        rw [h0, chunk_ceilDiv_zero cap hc,
          chunk_ceilDiv_one cap (x :: xs).length hc (by simp) h]
        simp
      · push_neg at h
        rw [chunk_ceilDiv_step cap (x :: xs).length hc h, Nat.succ_min_succ]

theorem chunkCap_get? {α : Type} (cap : ℕ) :
    ∀ (m : ℕ) (g : List α) (i : ℕ), i < (chunkCap cap m g).length →
      (chunkCap cap m g).get? i = some ((g.drop (i * cap)).take cap) := by
  intro m
  induction m with
  | zero => intro g i hi; cases g <;> simp [chunkCap] at hi
  | succ m ih =>
    intro g i hi
    cases g with
    | nil => simp [chunkCap] at hi
    | cons x xs =>
      cases i with
      | zero => simp [chunkCap]
      | succ i =>
        have hi' : i < (chunkCap cap m (List.drop cap (x :: xs))).length := by
          have : (chunkCap cap (m + 1) (x :: xs)) =
            List.take cap (x :: xs) :: chunkCap cap m (List.drop cap (x :: xs)) := rfl
          rw [this, List.length_cons] at hi
          omega
        show (chunkCap cap m (List.drop cap (x :: xs))).get? i = _
        rw [ih (List.drop cap (x :: xs)) i hi', List.drop_drop]
        congr 2
        ring_nf

theorem chunkCap_flatten {α : Type} (cap : ℕ) :
    ∀ (m : ℕ) (g : List α),
      (chunkCap cap m g).flatten = g.take (min g.length (cap * m)) := by
  intro m
  induction m with
  | zero => intro g; cases g <;> simp [chunkCap]
  | succ m ih =>
    intro g
    cases g with
    | nil => simp [chunkCap]
    | cons x xs =>
      show (List.take cap (x :: xs) ++ (chunkCap cap m (List.drop cap (x :: xs))).flatten) = _
      rw [ih, List.length_drop]
      by_cases h : (x :: xs).length ≤ cap
      · have hdrop : List.drop cap (x :: xs) = [] := by
          apply List.drop_eq_nil_of_le h
        have htake : List.take cap (x :: xs) = x :: xs :=
          List.take_of_length_le h
        have hmin : min (x :: xs).length (cap * (m + 1)) = (x :: xs).length := by
          have : cap ≤ cap * (m + 1) := Nat.le_mul_of_pos_right cap (by omega)
          omega
        rw [hdrop, htake, hmin]
        simp
      · push_neg at h
        have hmin : min (x :: xs).length (cap * (m + 1)) =
            cap + min ((x :: xs).length - cap) (cap * m) := by
          have hmul : cap * (m + 1) = cap * m + cap := by ring
          rw [hmul]
          generalize cap * m = P
          omega
        rw [hmin, List.take_add]

/-! ### Reductions and bundled invariants used by the claim theorems -/

theorem twoOptLoop_of_fix (p : List ℕ → List ℕ) (f : ℕ) (r : List ℕ)
    (h : p r = r) : twoOptLoop p f r = r := by
  cases f with
  | zero => rfl
  | succ f => show (if p r = r then r else twoOptLoop p f (p r)) = r; simp [h]

theorem solve_tsp_euclid_eq (n : ℕ) (pd : ℕ → ℕ → ℚ) (mat : Option (ℕ → ℕ → ℚ))
    (imp : Bool) (hn : 2 ≤ n) :
    solve_tsp n pd mat "euclid_nn" imp =
      .ok (if imp = true ∧ 4 < (nn_route pd n).length then
        tsp_two_opt pd (nn_route pd n) else nn_route pd n) := by
  unfold solve_tsp
  rw [if_neg (by omega), if_neg (by omega)]
  rfl

theorem solve_tsp_time_eq (n : ℕ) (pd M : ℕ → ℕ → ℚ) (imp : Bool) (hn : 2 ≤ n) :
    solve_tsp n pd (some M) "time_nn" imp =
      .ok (if imp = true ∧ 4 < (nn_route M n).length then
        tsp_two_opt M (nn_route M n) else nn_route M n) := by
  unfold solve_tsp
  rw [if_neg (by omega), if_neg (by omega)]
  rfl

theorem rs_solve_tsp_none_eq (d : ℕ → ℕ → ℚ) (rng : ℕ → ℕ × ℕ) (n it : ℕ)
    (hn : 2 ≤ n) : rs_solve_tsp d rng n "none" it = nn_route d n := by
  unfold rs_solve_tsp
  rw [if_neg (by omega)]
  rfl

theorem rs_solve_tsp_two_opt_eq (d : ℕ → ℕ → ℚ) (rng : ℕ → ℕ × ℕ) (n it : ℕ)
    (hn : 2 ≤ n) : rs_solve_tsp d rng n "two_opt" it = rs_two_opt d 30 (nn_route d n) := by
  unfold rs_solve_tsp
  rw [if_neg (by omega)]
  rfl

/-- The Tour invariants of the spec, for any route that is a permutation of
the nearest-neighbor round trip fixing both endpoints. -/
theorem preserved_invariants (d : ℕ → ℕ → ℚ) (n : ℕ) (hn : 1 ≤ n) (r : List ℕ)
    (hperm : r.Perm (nn_route d n)) (hh : r.head? = (nn_route d n).head?)
    (hl : r.getLast? = (nn_route d n).getLast?) :
    r.head? = some 0 ∧ r.getLast? = some 0 ∧ r.length = n + 1 ∧
      (∀ i, 1 ≤ i → i < n → r.count i = 1) ∧ r.count 0 = 2 := by
  refine ⟨hh.trans (nn_route_head? d n), hl.trans (nn_route_getLast? d n), ?_, ?_, ?_⟩
  · rw [hperm.length_eq]; exact nn_route_length d n hn
  · intro i h1 h2
    rw [hperm.count_eq]
    exact (nn_route_count d n).1 i h1 h2
  · rw [hperm.count_eq]
    exact (nn_route_count d n).2

theorem tsp_two_opt_invariants (d : ℕ → ℕ → ℚ) (n : ℕ) (hn : 1 ≤ n) :
    (tsp_two_opt d (nn_route d n)).head? = some 0 ∧
    (tsp_two_opt d (nn_route d n)).getLast? = some 0 ∧
    (tsp_two_opt d (nn_route d n)).length = n + 1 ∧
    (∀ i, 1 ≤ i → i < n → (tsp_two_opt d (nn_route d n)).count i = 1) ∧
    (tsp_two_opt d (nn_route d n)).count 0 = 2 := by
  obtain ⟨hp, hh, hl⟩ := twoOptLoop_preserves (tspPass d)
    (fun s => tspPass_preserves d s) (tspFuel d (nn_route d n)) (nn_route d n)
  exact preserved_invariants d n hn _ hp hh hl

theorem rs_two_opt_invariants (d : ℕ → ℕ → ℚ) (mp n : ℕ) (hn : 1 ≤ n) :
    (rs_two_opt d mp (nn_route d n)).head? = some 0 ∧
    (rs_two_opt d mp (nn_route d n)).getLast? = some 0 ∧
    (rs_two_opt d mp (nn_route d n)).length = n + 1 ∧
    (∀ i, 1 ≤ i → i < n → (rs_two_opt d mp (nn_route d n)).count i = 1) ∧
    (rs_two_opt d mp (nn_route d n)).count 0 = 2 := by
  obtain ⟨hp, hh, hl⟩ := rsLoop_preserves (rsPass d)
    (fun s => rsPass_preserves d s) mp 0 (nn_route d n)
  exact preserved_invariants d n hn _ hp hh hl

theorem nn_route_invariants (d : ℕ → ℕ → ℚ) (n : ℕ) (hn : 1 ≤ n) :
    (nn_route d n).head? = some 0 ∧ (nn_route d n).getLast? = some 0 ∧
    (nn_route d n).length = n + 1 ∧
    (∀ i, 1 ≤ i → i < n → (nn_route d n).count i = 1) ∧
    (nn_route d n).count 0 = 2 :=
  preserved_invariants d n hn _ (List.Perm.refl _) rfl rfl

theorem pair_route_invariants (n : ℕ) (hn : n = 1) :
    ([0, 0] : List ℕ).head? = some 0 ∧ ([0, 0] : List ℕ).getLast? = some 0 ∧
    ([0, 0] : List ℕ).length = n + 1 ∧
    (∀ i, 1 ≤ i → i < n → ([0, 0] : List ℕ).count i = 1) ∧
    ([0, 0] : List ℕ).count 0 = 2 := by
  subst hn
  refine ⟨rfl, rfl, rfl, ?_, by decide⟩
  intro i h1 h2
  omega

/-! ### Claim theorems -/

/-- C1: every tour-sequencing strategy (nearest-neighbor with Euclidean or
matrix distance, with or without 2-opt improvement, in `tsp.py:solve_tsp`,
`route_solver.py:_nearest_neighbor` and `route_solver.py:solve_tsp`) returns,
for every point set of `n ≥ 1` points with the depot at index 0, a tour whose
first and last elements are the depot 0, whose length is `n + 1`, in which
every index in `1..n-1` appears exactly once and the depot exactly twice
(`n = 1` yields `[0, 0]`): the depot is never moved or duplicated. -/
theorem tours_satisfy_invariants :
    (∀ (n : ℕ) (pd : ℕ → ℕ → ℚ) (mat : Option (ℕ → ℕ → ℚ)) (method : String)
        (imp : Bool), 1 ≤ n →
        (method = "euclid_nn" ∨ (method = "time_nn" ∧ mat ≠ none)) →
        ∃ r, solve_tsp n pd mat method imp = Except.ok r ∧
          r.head? = some 0 ∧ r.getLast? = some 0 ∧ r.length = n + 1 ∧
          (∀ i, 1 ≤ i → i < n → r.count i = 1) ∧ r.count 0 = 2) ∧
    (∀ (n : ℕ) (d : ℕ → ℕ → ℚ), 1 ≤ n →
        (rs_nearest_neighbor d n).head? = some 0 ∧
        (rs_nearest_neighbor d n).getLast? = some 0 ∧
        (rs_nearest_neighbor d n).length = n + 1 ∧
        (∀ i, 1 ≤ i → i < n → (rs_nearest_neighbor d n).count i = 1) ∧
        (rs_nearest_neighbor d n).count 0 = 2) ∧
    (∀ (n : ℕ) (d : ℕ → ℕ → ℚ) (rng : ℕ → ℕ × ℕ) (it : ℕ) (im : String),
        1 ≤ n → (im = "none" ∨ im = "two_opt") →
        (rs_solve_tsp d rng n im it).head? = some 0 ∧
        (rs_solve_tsp d rng n im it).getLast? = some 0 ∧
        (rs_solve_tsp d rng n im it).length = n + 1 ∧
        (∀ i, 1 ≤ i → i < n → (rs_solve_tsp d rng n im it).count i = 1) ∧
        (rs_solve_tsp d rng n im it).count 0 = 2) := by
  refine ⟨?_, ?_, ?_⟩
  · intro n pd mat method imp hn hm
    by_cases h1 : n = 1
    · subst h1
      have hval : solve_tsp 1 pd mat method imp = Except.ok [0, 0] := rfl
      exact ⟨[0, 0], hval, pair_route_invariants 1 rfl⟩
    · have hn2 : 2 ≤ n := by omega
      rcases hm with rfl | ⟨rfl, hmat⟩
      · rw [solve_tsp_euclid_eq n pd mat imp hn2]
        refine ⟨_, rfl, ?_⟩
        by_cases hcond : imp = true ∧ 4 < (nn_route pd n).length
        · rw [if_pos hcond]; exact tsp_two_opt_invariants pd n (by omega)
        · rw [if_neg hcond]; exact nn_route_invariants pd n (by omega)
      · obtain ⟨M, rfl⟩ := Option.ne_none_iff_exists'.mp hmat
        rw [solve_tsp_time_eq n pd M imp hn2]
        refine ⟨_, rfl, ?_⟩
        by_cases hcond : imp = true ∧ 4 < (nn_route M n).length
        · rw [if_pos hcond]; exact tsp_two_opt_invariants M n (by omega)
        · rw [if_neg hcond]; exact nn_route_invariants M n (by omega)
  · intro n d hn
    exact nn_route_invariants d n hn
  · intro n d rng it im hn him
    by_cases h1 : n = 1
    · subst h1
      have hval : rs_solve_tsp d rng 1 im it = [0, 0] := rfl
      rw [hval]
      exact pair_route_invariants 1 rfl
    · have hn2 : 2 ≤ n := by omega
      rcases him with rfl | rfl
      · rw [rs_solve_tsp_none_eq d rng n it hn2]
        exact nn_route_invariants d n (by omega)
      · rw [rs_solve_tsp_two_opt_eq d rng n it hn2]
        exact rs_two_opt_invariants d 30 n (by omega)

/-- C1 witness: a concrete 3-point instance through the euclid strategy with
2-opt, and through the route-solver two_opt strategy. -/
theorem tours_satisfy_invariants_witness :
    (1 ≤ 3 ∧ ∃ r, solve_tsp 3 demoAbsDist none "euclid_nn" true = Except.ok r ∧
      r.head? = some 0 ∧ r.getLast? = some 0 ∧ r.length = 3 + 1 ∧
      (∀ i, 1 ≤ i → i < 3 → r.count i = 1) ∧ r.count 0 = 2) ∧
    (rs_solve_tsp demoAbsDist (fun _ => (0, 0)) 3 "two_opt" 200).head? = some 0 :=
  ⟨⟨by decide,
    tours_satisfy_invariants.1 3 demoAbsDist none "euclid_nn" true (by decide)
      (Or.inl rfl)⟩,
   (tours_satisfy_invariants.2.2 3 demoAbsDist (fun _ => (0, 0)) 200 "two_opt"
      (by decide) (Or.inr rfl)).1⟩

/-- C2: for every route and every cost source (a distance matrix or the
Euclidean point distance, both consumed through `d`), both 2-opt
implementations return a route whose total cost is at most that of the
input route; a route that is 2-opt-locally-optimal (its sweep is a fixpoint,
i.e. no move improves by more than 1e-9) is returned unchanged, hence with
equal cost, and re-running `tsp.py:_two_opt` is idempotent. -/
theorem two_opt_cost_monotone_idempotent (d : ℕ → ℕ → ℚ) (r : List ℕ) (mp : ℕ) :
    route_cost d (tsp_two_opt d r) ≤ route_cost d r ∧
    route_cost d (rs_two_opt d mp r) ≤ route_cost d r ∧
    (tspPass d r = r → tsp_two_opt d r = r) ∧
    (rsPass d r = r → rs_two_opt d mp r = r) ∧
    tsp_two_opt d (tsp_two_opt d r) = tsp_two_opt d r := by
  refine ⟨?_, ?_, ?_, ?_, ?_⟩
  · exact twoOptLoop_cost_le d (tspPass d)
      (fun s => twoOptPassOn_cost_le d (tspPairs s.length) s) (tspFuel d r) r
  · exact rsLoop_fst_cost_le d (rsPass d)
      (fun s => twoOptPassOn_cost_le d (rsPairs s.length) s) mp 0 r
  · intro h; exact twoOptLoop_of_fix (tspPass d) (tspFuel d r) r h
  · intro h; exact rsLoop_of_fix (rsPass d) mp 0 r h
  · exact twoOptLoop_of_fix (tspPass d) (tspFuel d (tsp_two_opt d r))
      (tsp_two_opt d r) (tsp_two_opt_fix d r)

/-- C2 witness: `[0, 1, 2, 3, 0]` is 2-opt-locally-optimal for the
integer-gap cost, and both implementations return it unchanged. -/
theorem two_opt_cost_monotone_idempotent_witness :
    tspPass demoAbsDist [0, 1, 2, 3, 0] = [0, 1, 2, 3, 0] ∧
    tsp_two_opt demoAbsDist [0, 1, 2, 3, 0] = [0, 1, 2, 3, 0] ∧
    rsPass demoAbsDist [0, 1, 2, 3, 0] = [0, 1, 2, 3, 0] ∧
    rs_two_opt demoAbsDist 30 [0, 1, 2, 3, 0] = [0, 1, 2, 3, 0] := by
  have h1 : tspPass demoAbsDist [0, 1, 2, 3, 0] = [0, 1, 2, 3, 0] := by
    show twoOptPassOn demoAbsDist (tspPairs ([0, 1, 2, 3, 0] : List ℕ).length)
      [0, 1, 2, 3, 0] = _
    rw [show tspPairs ([0, 1, 2, 3, 0] : List ℕ).length = [(1, 3)] from by decide]
    norm_num [twoOptPassOn, twoOptStep, twoOptSwap, route_cost, demoAbsDist, eps]
  have h2 : rsPass demoAbsDist [0, 1, 2, 3, 0] = [0, 1, 2, 3, 0] := by
    show twoOptPassOn demoAbsDist (rsPairs ([0, 1, 2, 3, 0] : List ℕ).length)
      [0, 1, 2, 3, 0] = _
    rw [show rsPairs ([0, 1, 2, 3, 0] : List ℕ).length = [(1, 3)] from by decide]
    norm_num [twoOptPassOn, twoOptStep, twoOptSwap, route_cost, demoAbsDist, eps]
  exact ⟨h1,
    (two_opt_cost_monotone_idempotent demoAbsDist [0, 1, 2, 3, 0] 30).2.2.1 h1,
    h2,
    (two_opt_cost_monotone_idempotent demoAbsDist [0, 1, 2, 3, 0] 30).2.2.2.1 h2⟩

/-- C3: with an end-time anchor `E` and no start anchor, the timeline starts
at `E` minus the total tour duration and ends at `E`, and re-anchoring the
same tour and matrix to that start time reproduces the identical timeline
(exact rational arithmetic). -/
theorem timeline_end_anchor_roundtrip (route : List ℕ) (mat : ℕ → ℕ → ℚ) (E : ℚ) :
    (simulate_timeline route mat none (some E)).head? =
      some (E - tour_duration route mat) ∧
    (simulate_timeline route mat none (some E)).getLast? = some E ∧
    simulate_timeline route mat (some (E - tour_duration route mat)) none =
      simulate_timeline route mat none (some E) := by
  refine ⟨?_, ?_, rfl⟩
  · exact scanl_add_head? _ _
  · show (List.scanl (· + ·)
        (E - ((route.zip route.tail).map fun p => mat p.1 p.2).sum)
        ((route.zip route.tail).map fun p => mat p.1 p.2)).getLast? = some E
    rw [scanl_add_getLast?]
    congr 1
    ring

/-- C5: the KPI aggregator on an empty event set returns zeros for all
lateness and ride-time statistics and 1.0 for both on-time rates. -/
theorem kpis_empty_events (thr : Option ℚ) :
    compute_kpis [] thr = Except.ok
      { pickup_late_mean := 0, pickup_late_p95 := 0, pickup_late_max := 0,
        center_late_mean := 0, center_late_p95 := 0, center_late_max := 0,
        pickup_on_time_rate := 1, center_on_time_rate := 1,
        ride_time_mean := 0, ride_time_p95 := 0, ride_time_max := 0 } := rfl

/-- C6: the geometric travel-time model with noise shape `sigma = 0` samples
exactly the mean, for every abstracted great-circle geometry, every drawn
noise factor and every coordinate pair. -/
theorem euclid_sigma_zero_sample_eq_mean (m : EuclidTimeModel)
    (hav : ℚ × ℚ → ℚ × ℚ → ℚ) (noise : ℚ) (a b : ℚ × ℚ)
    (hs : m.noise_sigma = 0) :
    m.sample_travel_min hav noise a b = m.mean_travel_min hav a b := by
  unfold EuclidTimeModel.sample_travel_min
  rw [if_pos (by simp [hs])]

/-- C6 witness: a concrete model with `sigma = 0` and a non-unit noise draw. -/
theorem euclid_sigma_zero_sample_eq_mean_witness :
    (⟨18, 1, 5/4, 0, 123⟩ : EuclidTimeModel).noise_sigma = 0 ∧
    EuclidTimeModel.sample_travel_min ⟨18, 1, 5/4, 0, 123⟩ (fun _ _ => 1) 2 (0, 0) (1, 1) =
      EuclidTimeModel.mean_travel_min ⟨18, 1, 5/4, 0, 123⟩ (fun _ _ => 1) (0, 0) (1, 1) :=
  ⟨rfl, euclid_sigma_zero_sample_eq_mean ⟨18, 1, 5/4, 0, 123⟩ (fun _ _ => 1) 2
    (0, 0) (1, 1) rfl⟩

/-- C9: when the two coordinates resolve to distinct nodes, the directed
search finds no path and the undirected mirror does, `mean_travel_min`
returns the undirected duration (seconds over 60) and `sample_travel_min`
agrees; the geometric haversine fallback is used only when both searches
fail, and no-path conditions never surface as errors (the function is
total by construction). -/
theorem road_no_path_fallback_chain (m : RoadTimeModel) (a b : ℚ × ℚ) (s : ℚ)
    (hne : m.nearestNode a ≠ m.nearestNode b)
    (hdir : m.directedSec (m.nearestNode a) (m.nearestNode b) = none)
    (hund : m.undirectedSec (m.nearestNode a) (m.nearestNode b) = some s) :
    m.mean_travel_min a b = s / 60 ∧
    m.sample_travel_min a b = s / 60 ∧
    (∀ (a2 b2 : ℚ × ℚ),
      m.nearestNode a2 ≠ m.nearestNode b2 →
      m.directedSec (m.nearestNode a2) (m.nearestNode b2) = none →
      m.undirectedSec (m.nearestNode a2) (m.nearestNode b2) = none →
      m.mean_travel_min a2 b2 =
        m.havKm a2 b2 * m.detour_factor /
          max 1 (m.fallback_speed_kph * m.speed_multiplier) * 60) := by
  refine ⟨?_, ?_, ?_⟩
  · simp [RoadTimeModel.mean_travel_min, RoadTimeModel.od_time_min, hne, hdir, hund]
  · simp [RoadTimeModel.sample_travel_min, RoadTimeModel.mean_travel_min,
      RoadTimeModel.od_time_min, hne, hdir, hund]
  · intro a2 b2 hne2 hdir2 hund2
    simp [RoadTimeModel.mean_travel_min, RoadTimeModel.od_time_min, hne2, hdir2, hund2]

/-- C9 witness: a concrete model with an empty directed graph and a 120 s
undirected connection gives 2 minutes, not the geometric fallback. -/
theorem road_no_path_fallback_chain_witness :
    roadDemoModel.nearestNode (0, 0) ≠ roadDemoModel.nearestNode (1, 1) ∧
    roadDemoModel.directedSec (roadDemoModel.nearestNode (0, 0))
      (roadDemoModel.nearestNode (1, 1)) = none ∧
    roadDemoModel.undirectedSec (roadDemoModel.nearestNode (0, 0))
      (roadDemoModel.nearestNode (1, 1)) = some 120 ∧
    roadDemoModel.mean_travel_min (0, 0) (1, 1) = 120 / 60 :=
  ⟨by decide, by decide, by decide,
   (road_no_path_fallback_chain roadDemoModel (0, 0) (1, 1) 120 (by decide)
     (by decide) (by decide)).1⟩

/-- C10: both 2-opt implementations are total and converge in a bounded
number of sweeps: any sweep that changes the route lowers its cost by more
than the 1e-9 threshold, `tsp.py:_two_opt` reaches a sweep fixpoint within
its computed pass bound, and `route_solver.py:_two_opt` executes at most its
configurable `max_passes` (default 30) sweeps. -/
theorem two_opt_terminates_bounded_passes (d : ℕ → ℕ → ℚ) (r : List ℕ) (mp : ℕ) :
    (tspPass d r ≠ r → route_cost d (tspPass d r) + eps < route_cost d r) ∧
    (rsPass d r ≠ r → route_cost d (rsPass d r) + eps < route_cost d r) ∧
    tspPass d (tsp_two_opt d r) = tsp_two_opt d r ∧
    rs_two_opt_passes d mp r ≤ mp := by
  refine ⟨?_, ?_, tsp_two_opt_fix d r, ?_⟩
  · intro h
    rcases twoOptPassOn_eq_or_lt d (tspPairs r.length) r with h' | h'
    · exact absurd h' h
    · exact h'
  · intro h
    rcases twoOptPassOn_eq_or_lt d (rsPairs r.length) r with h' | h'
    · exact absurd h' h
    · exact h'
  · have := rsLoop_count (rsPass d) mp 0 r
    simpa using this

/-- C10 witness: a concrete improving instance; the single sweep lowers the
cost by more than the threshold and the pass counter respects the cap. -/
theorem two_opt_terminates_bounded_passes_witness :
    tspPass demoAbsDist [0, 2, 1, 3, 0] ≠ [0, 2, 1, 3, 0] ∧
    route_cost demoAbsDist (tspPass demoAbsDist [0, 2, 1, 3, 0]) + eps <
      route_cost demoAbsDist [0, 2, 1, 3, 0] ∧
    rsPass demoAbsDist [0, 2, 1, 3, 0] ≠ [0, 2, 1, 3, 0] ∧
    route_cost demoAbsDist (rsPass demoAbsDist [0, 2, 1, 3, 0]) + eps <
      route_cost demoAbsDist [0, 2, 1, 3, 0] ∧
    tspPass demoAbsDist (tsp_two_opt demoAbsDist [0, 2, 1, 3, 0]) =
      tsp_two_opt demoAbsDist [0, 2, 1, 3, 0] ∧
    rs_two_opt_passes demoAbsDist 30 [0, 2, 1, 3, 0] ≤ 30 := by
  have h1 : tspPass demoAbsDist [0, 2, 1, 3, 0] = [0, 1, 2, 3, 0] := by
    show twoOptPassOn demoAbsDist (tspPairs ([0, 2, 1, 3, 0] : List ℕ).length)
      [0, 2, 1, 3, 0] = _
    rw [show tspPairs ([0, 2, 1, 3, 0] : List ℕ).length = [(1, 3)] from by decide]
    norm_num [twoOptPassOn, twoOptStep, twoOptSwap, route_cost, demoAbsDist, eps]
  have h2 : rsPass demoAbsDist [0, 2, 1, 3, 0] = [0, 1, 2, 3, 0] := by
    show twoOptPassOn demoAbsDist (rsPairs ([0, 2, 1, 3, 0] : List ℕ).length)
      [0, 2, 1, 3, 0] = _
    rw [show rsPairs ([0, 2, 1, 3, 0] : List ℕ).length = [(1, 3)] from by decide]
    norm_num [twoOptPassOn, twoOptStep, twoOptSwap, route_cost, demoAbsDist, eps]
  have h1' : tspPass demoAbsDist [0, 2, 1, 3, 0] ≠ [0, 2, 1, 3, 0] := by
    rw [h1]; decide
  have h2' : rsPass demoAbsDist [0, 2, 1, 3, 0] ≠ [0, 2, 1, 3, 0] := by
    rw [h2]; decide
  exact ⟨h1',
    (two_opt_terminates_bounded_passes demoAbsDist [0, 2, 1, 3, 0] 30).1 h1',
    h2',
    (two_opt_terminates_bounded_passes demoAbsDist [0, 2, 1, 3, 0] 30).2.1 h2',
    (two_opt_terminates_bounded_passes demoAbsDist [0, 2, 1, 3, 0] 30).2.2.1,
    (two_opt_terminates_bounded_passes demoAbsDist [0, 2, 1, 3, 0] 30).2.2.2⟩

/-- C4: with capacity `c > 0` and vehicle cap `m > 0`, the chunk partitioner
(in both `pipeline.py:_split_vehicles_df` and the `chunk` strategy of
`clustering.py:split_requests_into_buses`) yields `min(ceil(k/c), m)` groups,
group `i` being the consecutive block `g[i*c : i*c + c]`, their concatenation
being the first `min(k, c*m)` requests — every request beyond `c*m` is
silently dropped, with no overflow vehicle; 25 requests with `c = 10`,
`m = 2` give exactly the two blocks of 10 with 5 requests dropped. -/
theorem chunk_partitioner_blocks (α : Type) (dist : α → ℚ) (g : List α)
    (cap mv : ℤ) (hc : 0 < cap) (hm : 0 < mv) :
    ∃ bs, split_vehicles_df g cap mv = Except.ok bs ∧
      split_requests_into_buses dist g cap mv "chunk" = Except.ok bs ∧
      bs.length = min ((g.length + cap.toNat - 1) / cap.toNat) mv.toNat ∧
      (∀ i, i < bs.length →
        bs.get? i = some ((g.drop (i * cap.toNat)).take cap.toNat)) ∧
      bs.flatten = g.take (min g.length (cap.toNat * mv.toNat)) ∧
      split_vehicles_df (List.range 25) (10 : ℤ) (2 : ℤ) =
        Except.ok [List.range' 0 10, List.range' 10 10] := by
  have hcn : 0 < cap.toNat := by omega
  refine ⟨chunkCap cap.toNat mv.toNat g, ?_, ?_,
    chunkCap_length cap.toNat hcn mv.toNat g,
    fun i hi => chunkCap_get? cap.toNat mv.toNat g i hi,
    chunkCap_flatten cap.toNat mv.toNat g, by rfl⟩
  · unfold split_vehicles_df
    rw [if_neg (by omega), if_neg (by omega)]
  · unfold split_requests_into_buses
    by_cases hg : g.length = 0
    · rw [if_pos hg]
      have hnil : g = [] := List.length_eq_zero.mp hg
      subst hnil
      simp [chunkCap]
    · rw [if_neg hg, if_neg (by omega), if_neg (by omega), if_neg (by omega)]
      rfl

/-- C4 witness: the 25-request, capacity-10, two-vehicle scenario. -/
theorem chunk_partitioner_blocks_witness :
    (0 : ℤ) < 10 ∧ (0 : ℤ) < 2 ∧
    ∃ bs, split_vehicles_df (List.range 25) (10 : ℤ) (2 : ℤ) = Except.ok bs ∧
      split_requests_into_buses (fun _ : ℕ => (0 : ℚ)) (List.range 25) (10 : ℤ)
        (2 : ℤ) "chunk" = Except.ok bs ∧
      bs.flatten = (List.range 25).take 20 := by
  refine ⟨by decide, by decide, ?_⟩
  obtain ⟨bs, h1, h2, _, _, h5, _⟩ := chunk_partitioner_blocks ℕ (fun _ => 0)
    (List.range 25) 10 2 (by decide) (by decide)
  refine ⟨bs, h1, h2, ?_⟩
  rw [h5]
  decide

/-- C7 counterexample: an unrecognized travel-time-model kind does not fail
fast — `build_time_model` silently falls into the euclid default branch, so
the dispatch maps the unknown kind "gravity" to the euclid model instead of
raising a descriptive error. -/
theorem time_model_unknown_kind_silently_defaults :
    build_time_model_kind "gravity" = ModelKind.euclid ∧
      ("gravity" : String) ≠ "road" ∧ ("gravity" : String) ≠ "euclid" :=
  ⟨by decide, by decide, by decide⟩

/-- C7 (amended): `tsp.py:solve_tsp` fails fast on an unknown sequencing
method with an error naming the invalid value (for point sets of size at
least 2; sizes 0 and 1 return before validation), but
`route_solver.py:solve_tsp` silently returns the unimproved nearest-neighbor
route for an unknown `improve_method`, and `build_time_model` silently
defaults every unrecognized model kind to the euclid model. -/
theorem unknown_selector_behavior :
    (∀ (n : ℕ) (pd : ℕ → ℕ → ℚ) (mat : Option (ℕ → ℕ → ℚ)) (method : String)
        (imp : Bool), 2 ≤ n → method ≠ "euclid_nn" → method ≠ "time_nn" →
        solve_tsp n pd mat method imp =
          Except.error ("Unknown routing method: " ++ method)) ∧
    (∀ (d : ℕ → ℕ → ℚ) (rng : ℕ → ℕ × ℕ) (n it : ℕ) (im : String),
        2 ≤ n → im ≠ "none" → im ≠ "two_opt" → im ≠ "tabu" →
        rs_solve_tsp d rng n im it = rs_nearest_neighbor d n) ∧
    (∀ kind : String, strLower kind ≠ "road" →
        build_time_model_kind kind = ModelKind.euclid) := by
  refine ⟨?_, ?_, ?_⟩
  · intro n pd mat method imp hn h1 h2
    unfold solve_tsp
    rw [if_neg (by omega), if_neg (by omega), if_pos ⟨h1, h2⟩]
  · intro d rng n it im hn h1 h2 h3
    unfold rs_solve_tsp
    rw [if_neg (by omega), if_neg h1, if_neg h2, if_neg h3]
  · intro kind h
    unfold build_time_model_kind
    rw [if_neg h]

/-- C7 witness: concrete unknown selectors. -/
theorem unknown_selector_behavior_witness :
    solve_tsp 2 (fun _ _ => (0 : ℚ)) none "banana" false =
      Except.error ("Unknown routing method: " ++ "banana") ∧
    rs_solve_tsp (fun _ _ => (0 : ℚ)) (fun _ => (0, 0)) 2 "banana" 0 =
      rs_nearest_neighbor (fun _ _ => (0 : ℚ)) 2 ∧
    build_time_model_kind "mystery" = ModelKind.euclid :=
  ⟨unknown_selector_behavior.1 2 (fun _ _ => 0) none "banana" false (by decide)
     (by decide) (by decide),
   unknown_selector_behavior.2.1 (fun _ _ => 0) (fun _ => (0, 0)) 2 0 "banana"
     (by decide) (by decide) (by decide) (by decide),
   unknown_selector_behavior.2.2 "mystery" (by decide)⟩

/-- C8 counterexample: the cluster partitioner performs no capacity
validation — a negative capacity under the center-distance-first policy and
a non-positive vehicle cap under the chunk policy both return an empty group
list without any ConfigurationError. -/
theorem cluster_split_accepts_invalid_caps :
    split_requests_into_buses (fun _ : ℕ => (0 : ℚ)) [1] (-1 : ℤ) (2 : ℤ)
      "center_dist" = Except.ok [] ∧
    split_requests_into_buses (fun _ : ℕ => (0 : ℚ)) [1] (10 : ℤ) (0 : ℤ)
      "chunk" = Except.ok [] :=
  ⟨rfl, rfl⟩

/-- C8 (amended): the legacy splitter `pipeline.py:_split_vehicles_df` fails
with ConfigError when capacity or vehicle cap is non-positive, but
`clustering.py:split_requests_into_buses` (both the chunk and the
center-distance-first policies) performs no validation: on a nonempty group,
zero capacity raises the Python range ValueError, while a negative capacity or
a non-positive vehicle cap silently yield an empty group list. -/
theorem split_validation_behavior (α : Type) (dist : α → ℚ) (g : List α)
    (cap mv : ℤ) (strategy : String) :
    (cap ≤ 0 → split_vehicles_df g cap mv =
      Except.error ("capacity must be > 0 (got " ++ toString cap ++ ")")) ∧
    (0 < cap → mv ≤ 0 → split_vehicles_df g cap mv =
      Except.error ("max_vehicles_per_center_slot must be > 0 (got " ++
        toString mv ++ ")")) ∧
    (g ≠ [] → cap = 0 → split_requests_into_buses dist g cap mv strategy =
      Except.error "range() arg 3 must not be zero") ∧
    (g ≠ [] → cap < 0 →
      split_requests_into_buses dist g cap mv strategy = Except.ok []) ∧
    (g ≠ [] → 0 < cap → mv ≤ 0 →
      split_requests_into_buses dist g cap mv strategy = Except.ok []) := by
  have hg : g ≠ [] → ¬g.length = 0 := fun h => by
    simpa [List.length_eq_zero] using h
  refine ⟨?_, ?_, ?_, ?_, ?_⟩
  · intro h
    unfold split_vehicles_df
    rw [if_pos h]
  · intro h1 h2
    unfold split_vehicles_df
    rw [if_neg (by omega), if_pos h2]
  · intro h h0
    unfold split_requests_into_buses
    rw [if_neg (hg h), if_pos h0]
  · intro h hneg
    unfold split_requests_into_buses
    rw [if_neg (hg h), if_neg (by omega), if_pos hneg]
  · intro h h1 h2
    unfold split_requests_into_buses
    rw [if_neg (hg h), if_neg (by omega), if_neg (by omega), if_pos h2]

/-- C8 witness: the legacy splitter rejects non-positive capacity and
vehicle cap, and the cluster splitter hits the range error at capacity 0. -/
theorem split_validation_behavior_witness :
    split_vehicles_df ([1] : List ℕ) (0 : ℤ) (2 : ℤ) =
      Except.error ("capacity must be > 0 (got " ++ toString (0 : ℤ) ++ ")") ∧
    split_vehicles_df ([1] : List ℕ) (5 : ℤ) (0 : ℤ) =
      Except.error ("max_vehicles_per_center_slot must be > 0 (got " ++
        toString (0 : ℤ) ++ ")") ∧
    split_requests_into_buses (fun _ : ℕ => (0 : ℚ)) [1] (0 : ℤ) (2 : ℤ)
      "chunk" = Except.error "range() arg 3 must not be zero" :=
  ⟨(split_validation_behavior ℕ (fun _ => 0) [1] 0 2 "chunk").1 (by decide),
   (split_validation_behavior ℕ (fun _ => 0) [1] 5 0 "chunk").2.1 (by decide)
     (by decide),
   (split_validation_behavior ℕ (fun _ => 0) [1] 0 2 "chunk").2.2.1 (by decide)
     rfl⟩
